import Mathlib

/-!
Verification of the DESY MCP server's parsing, caching, alias-resolution and
snippet-extraction layer, shallowly embedded from the JavaScript sources.

Strings are modelled as `List Char` (`Str`).  The repository contains two
variants of the core functions: the current one (the server embedded in
`src/replit.md`, which carries `COMPONENT_ALIASES`, `findComponentKey`,
`parseCodeBlocks`, `formatCodeOutput` and the first-seen-wins
`parseLlmsTxt`) and a legacy one (`src/server-desy.js`).  Both are embedded
where claims touch them; definitions note which source lines they mirror.

JavaScript `toLowerCase`/`normalize("NFD")`+strip-combining-marks are
modelled character-wise for the repertoire the program actually manipulates
(ASCII plus the Spanish accented letters appearing in the alias table and
catalog: á é í ó ú ü ñ and their upper-case forms), plus removal of
free-standing combining marks U+0300–U+036F.
-/

set_option maxRecDepth 10000

abbrev Str : Type := List Char

/-- Shorthand turning a Lean string literal into the `List Char` model. -/
def S (s : String) : Str := s.toList

/-- JS whitespace recognised by `String.prototype.trim` (the subset the
documents use: space, tab, newline, carriage return, form feed, vertical tab). -/
def isWsChar (c : Char) : Bool :=
  c = ' ' || c = '\t' || c = '\n' || c = '\r' || c = '\x0b' || c = '\x0c'

/-- `s.trim()` of JS: drop whitespace from both ends. -/
def jsTrimL (l : Str) : Str :=
  ((l.dropWhile isWsChar).reverse.dropWhile isWsChar).reverse

/-- Character-wise model of `c.toLowerCase()` on the program's repertoire. -/
def jsToLower (c : Char) : Char :=
  if 'A' ≤ c ∧ c ≤ 'Z' then Char.ofNat (c.toNat + 32)
  else match c with
  | 'Á' => 'á'
  | 'É' => 'é'
  | 'Í' => 'í'
  | 'Ó' => 'ó'
  | 'Ú' => 'ú'
  | 'Ü' => 'ü'
  | 'Ñ' => 'ñ'
  | _ => c

/-- Base letter left over after NFD decomposition once the combining mark in
U+0300–U+036F is removed (`.normalize("NFD").replace(/[̀-ͯ]/g, "")`). -/
def nfdBase (c : Char) : Char :=
  match c with
  | 'á' => 'a'
  | 'é' => 'e'
  | 'í' => 'i'
  | 'ó' => 'o'
  | 'ú' => 'u'
  | 'ü' => 'u'
  | 'ñ' => 'n'
  | 'Á' => 'A'
  | 'É' => 'E'
  | 'Í' => 'I'
  | 'Ó' => 'O'
  | 'Ú' => 'U'
  | 'Ü' => 'U'
  | 'Ñ' => 'N'
  | _ => c

/-- A free-standing combining diacritical mark (U+0300–U+036F). -/
def isCombiningMark (c : Char) : Bool :=
  0x300 ≤ c.toNat && c.toNat ≤ 0x36f

/-- `.normalize("NFD").replace(/[̀-ͯ]/g, "")`: decompose accented
letters to their base letter and drop free-standing combining marks. -/
def stripMarksL (l : Str) : Str :=
  (l.map nfdBase).filter (fun c => ¬ isCombiningMark c)

/-- `s.toLowerCase().trim().normalize("NFD").replace(/[̀-ͯ]/g, "")`,
the normalization chain used by `findComponentKey` (replit.md lines 155-156). -/
def normalizeStr (l : Str) : Str :=
  stripMarksL (jsTrimL (l.map jsToLower))

/-- `s.toLowerCase().normalize("NFD").replace(/[̀-ͯ]/g, "")` (no
trim), the chain used on alias variants and on variant filters. -/
def normalizeNoTrim (l : Str) : Str :=
  stripMarksL (l.map jsToLower)

/-- `hay.includes(needle)` of JS: substring containment. -/
def strIncludes (hay needle : Str) : Bool :=
  match hay with
  | [] => needle.isEmpty
  | c :: rest => needle.isPrefixOf (c :: rest) || strIncludes rest needle

/-- `l.endsWith(suf)` of JS. -/
def strEndsWith (l suf : Str) : Bool :=
  suf.reverse.isPrefixOf l.reverse

/-- `content.split("\n")` of JS (`"".split("\n") = [""]`). -/
def splitNL (s : Str) : List Str :=
  match s with
  | [] => [[]]
  | c :: rest =>
    let r := splitNL rest
    if c = '\n' then [] :: r
    else
      match r with
      | line :: more => (c :: line) :: more
      | [] => [[c]]

/-- `lines.join("\n")` of JS. -/
def joinNL : List Str → Str
  | [] => []
  | [l] => l
  | l :: l2 :: rest => l ++ '\n' :: joinNL (l2 :: rest)

section AssocOps

variable {α : Type}

/-- First-match lookup in an insertion-ordered association list (the model of
a JS object's property read `m[k]`; JS keys are unique, so first match is the
match). -/
def lookupA (m : List (Str × α)) (k : Str) : Option α :=
  match m with
  | [] => none
  | (k', v) :: rest => if k' = k then some v else lookupA rest k

/-- JS truthiness test `m[k]` for an object holding (truthy) records. -/
def containsA (m : List (Str × α)) (k : Str) : Bool :=
  (lookupA m k).isSome

/-- `m[k] = v` of JS: replace in place if the key exists, else append, which
preserves the object's insertion order of keys. -/
def setA (m : List (Str × α)) (k : Str) (v : α) : List (Str × α) :=
  match m with
  | [] => [(k, v)]
  | (k', v') :: rest => if k' = k then (k', v) :: rest else (k', v') :: setA rest k v

/-- Apply `f` to the value at key `k`, if present (models mutating one field
of the record stored at `m[k]`). -/
def updateA (m : List (Str × α)) (k : Str) (f : α → α) : List (Str × α) :=
  match m with
  | [] => []
  | (k', v') :: rest => if k' = k then (k', f v') :: rest else (k', v') :: updateA rest k f

end AssocOps

/-- Catalog entry built by `parseLlmsTxt` for one component link line. -/
structure Component where
  name : Str
  url : Str
  description : Str
  category : Str
  hasHtml : Bool
  hasNunjucks : Bool
  hasAngular : Bool
  hasProps : Bool
deriving DecidableEq, Repr

/-- Category record built by `parseLlmsTxt` for one heading. -/
structure Category where
  name : Str
  description : Str
  components : List Component
deriving DecidableEq, Repr

/-- The parsed catalog: insertion-ordered category and component maps. -/
structure Catalog where
  categories : List (Str × Category)
  components : List (Str × Component)
deriving DecidableEq, Repr

/-- Parser state while scanning the document line by line.  JS starts with
`currentCategory = null`; `null` and `""` are both falsy and every access is
guarded by a truthiness test, so the empty string models the unset state. -/
structure PState where
  categories : List (Str × Category)
  components : List (Str × Component)
  currentCategory : Str
deriving DecidableEq, Repr

def initPState : PState := ⟨[], [], []⟩

/-- Match of `/\[([^\]]+)\]\(([^)]+)\)/` anchored at the head of `l`:
`[text](url)` with non-empty text (no `]`) and non-empty url (no `)`). -/
def linkAt (l : Str) : Option (Str × Str) :=
  match l with
  | '[' :: rest =>
    let text := rest.takeWhile (· ≠ ']')
    let r1 := rest.dropWhile (· ≠ ']')
    if text = [] then none
    else
      match r1 with
      | ']' :: '(' :: r2 =>
        let url := r2.takeWhile (· ≠ ')')
        let r3 := r2.dropWhile (· ≠ ')')
        if url = [] then none
        else
          match r3 with
          | ')' :: _ => some (text, url)
          | _ => none
      | _ => none
  | _ => none

/-- Leftmost match of the link regex anywhere in `l` (regex engines retry at
the next position after a failed anchor). -/
def findLink : Str → Option (Str × Str)
  | [] => none
  | c :: rest =>
    match linkAt (c :: rest) with
    | some r => some r
    | none => findLink rest

/-- `parseMarkdownLink` (replit.md lines 296-302 / server-desy.js lines 51-57):
trim the line, search for `[text](url)`. -/
def parseMarkdownLink (line : Str) : Option (Str × Str) :=
  findLink (jsTrimL line)

/-- `line.replace(/^-\s*/, "")`: strip one leading dash and following
whitespace, if the line starts with a dash. -/
def stripDashWs (l : Str) : Str :=
  match l with
  | '-' :: rest => rest.dropWhile isWsChar
  | _ => l

/-- `line.replace(/^\s*-\s*/, "")`: strip leading whitespace, a dash and
following whitespace — only when a dash is actually there. -/
def stripWsDashWs (l : Str) : Str :=
  match l.dropWhile isWsChar with
  | '-' :: rest => rest.dropWhile isWsChar
  | _ => l

/-- One line of the current parser (`parseLlmsTxt`, replit.md lines 304-369):
`## `/`### ` headings register a category and set the current one; a bullet
line containing a `[text](url)` link whose url contains `/componente-` adds a
component — into the global map only if its lower-cased key is new
(first-seen-wins), and always appended to the current category's list. -/
def parseLineNew (st : PState) (line : Str) : PState :=
  let stripped := jsTrimL line
  if stripped = [] then st
  else if (S "## ").isPrefixOf stripped then
    let cc := jsTrimL (stripped.drop 3)
    let cats :=
      if cc ≠ [] && ¬ containsA st.categories cc then
        st.categories ++ [(cc, ⟨cc, S "Documentación de " ++ cc.map jsToLower, []⟩)]
      else st.categories
    { st with currentCategory := cc, categories := cats }
  else if (S "### ").isPrefixOf stripped then
    let cc := jsTrimL (stripped.drop 4)
    let cats :=
      if cc ≠ [] && ¬ containsA st.categories cc then
        st.categories ++ [(cc, ⟨cc, S "Componentes de " ++ cc.map jsToLower, []⟩)]
      else st.categories
    { st with currentCategory := cc, categories := cats }
  else if (S "- ").isPrefixOf stripped || (S "  - ").isPrefixOf stripped then
    let linkText := stripWsDashWs (stripDashWs stripped)
    match parseMarkdownLink linkText with
    | none => st
    | some (text, url) =>
      if strIncludes url (S "/componente-") then
        let urlLower := url.map jsToLower
        let comp : Component :=
          { name := text
            url := url
            description := text
            category := if st.currentCategory ≠ [] then st.currentCategory else S "General"
            hasHtml := strIncludes urlLower (S "-codigo") && ¬ strIncludes urlLower (S "-angular")
            hasNunjucks := strIncludes urlLower (S "nunjucks")
            hasAngular := strIncludes urlLower (S "angular")
            hasProps := strIncludes urlLower (S "propiedades") || strIncludes urlLower (S "props") }
        let key := text.map jsToLower
        let comps :=
          if containsA st.components key then st.components
          else st.components ++ [(key, comp)]
        let cats :=
          if st.currentCategory ≠ [] && containsA st.categories st.currentCategory then
            updateA st.categories st.currentCategory
              (fun cat => { cat with components := cat.components ++ [comp] })
          else st.categories
        { st with components := comps, categories := cats }
      else st
  else st

/-- `parseLlmsTxt` of the current server (replit.md lines 304-369). -/
def parseLlmsTxt (content : Str) : Catalog :=
  let final := (splitNL content).foldl parseLineNew initPState
  ⟨final.categories, final.components⟩

/-- One line of the legacy parser (`parseLlmsTxt`, server-desy.js lines
59-113): `### ` headings only set the current category without registering
it; bullet links are accepted only when the url does not end in `.md`; the
`hasHtml` flag tests the raw (not lower-cased) url; and a later line with an
existing key overwrites the global map entry. -/
def parseLineLegacy (st : PState) (line : Str) : PState :=
  let stripped := jsTrimL line
  if stripped = [] then st
  else if (S "## ").isPrefixOf stripped then
    let cc := jsTrimL (stripped.drop 3)
    let cats :=
      if cc ≠ [] && ¬ containsA st.categories cc then
        st.categories ++ [(cc, ⟨cc, S "Documentación de " ++ cc.map jsToLower, []⟩)]
      else st.categories
    { st with currentCategory := cc, categories := cats }
  else if (S "### ").isPrefixOf stripped then
    { st with currentCategory := jsTrimL (stripped.drop 4) }
  else if (S "- ").isPrefixOf stripped then
    match parseMarkdownLink (stripped.drop 2) with
    | none => st
    | some (text, url) =>
      if strIncludes url (S "/componente-") && ¬ strEndsWith url (S ".md") then
        let urlLower := url.map jsToLower
        let comp : Component :=
          { name := text
            url := url
            description := text
            category := if st.currentCategory ≠ [] then st.currentCategory else S "General"
            hasHtml := strIncludes url (S "-codigo")
            hasNunjucks := strIncludes urlLower (S "nunjucks")
            hasAngular := strIncludes urlLower (S "angular")
            hasProps := strIncludes urlLower (S "propiedades") || strIncludes urlLower (S "props") }
        let key := text.map jsToLower
        { st with
            components := setA st.components key comp
            categories :=
              if st.currentCategory ≠ [] && containsA st.categories st.currentCategory then
                updateA st.categories st.currentCategory
                  (fun cat => { cat with components := cat.components ++ [comp] })
              else st.categories }
      else st
  else st

/-- `parseLlmsTxt` of the legacy server (server-desy.js lines 59-113). -/
def parseLlmsTxtLegacy (content : Str) : Catalog :=
  let final := (splitNL content).foldl parseLineLegacy initPState
  ⟨final.categories, final.components⟩

/-- The static bilingual alias table `COMPONENT_ALIASES`
(replit.md lines 89-131), transcribed verbatim. -/
def COMPONENT_ALIASES : List (Str × List Str) :=
  [ (S "button", [S "button", S "botón", S "botones", S "boton"])
  , (S "button-loader", [S "button-loader", S "botón cargando", S "boton cargando", S "loader button"])
  , (S "modal", [S "modal", S "ventana modal", S "diálogo", S "dialogo", S "dialog"])
  , (S "input", [S "input", S "entrada", S "campo", S "text input", S "campo de texto"])
  , (S "select", [S "select", S "selector", S "desplegable", S "dropdown"])
  , (S "checkbox", [S "checkbox", S "casilla", S "casilla de verificación", S "check"])
  , (S "radio", [S "radio", S "radio button", S "botón de radio", S "boton de radio"])
  , (S "accordion", [S "accordion", S "acordeón", S "acordeon", S "desplegable"])
  , (S "alert", [S "alert", S "alerta", S "aviso", S "notificación", S "notificacion"])
  , (S "badge", [S "badge", S "insignia", S "etiqueta"])
  , (S "breadcrumb", [S "breadcrumb", S "migas de pan", S "breadcrumbs", S "navegación"])
  , (S "card", [S "card", S "tarjeta", S "cards", S "tarjetas"])
  , (S "carousel", [S "carousel", S "carrusel", S "slider"])
  , (S "dropdown", [S "dropdown", S "desplegable", S "menú desplegable", S "menu desplegable"])
  , (S "footer", [S "footer", S "pie de página", S "pie de pagina"])
  , (S "header", [S "header", S "cabecera", S "encabezado"])
  , (S "icon", [S "icon", S "icono", S "icons", S "iconos"])
  , (S "link", [S "link", S "enlace", S "enlaces", S "links"])
  , (S "list", [S "list", S "lista", S "listas", S "lists"])
  , (S "menu", [S "menu", S "menú", S "navegación", S "navegacion", S "nav"])
  , (S "navbar", [S "navbar", S "barra de navegación", S "navigation bar"])
  , (S "pagination", [S "pagination", S "paginación", S "paginacion", S "pager"])
  , (S "progress", [S "progress", S "progreso", S "barra de progreso", S "progress bar"])
  , (S "spinner", [S "spinner", S "cargando", S "loading", S "loader"])
  , (S "tab", [S "tab", S "tabs", S "pestaña", S "pestañas", S "pestana", S "pestanas"])
  , (S "table", [S "table", S "tabla", S "tablas", S "tables"])
  , (S "tag", [S "tag", S "etiqueta", S "tags", S "etiquetas"])
  , (S "textarea", [S "textarea", S "área de texto", S "area de texto", S "text area"])
  , (S "toast", [S "toast", S "notificación", S "notificacion", S "mensaje"])
  , (S "tooltip", [S "tooltip", S "descripción emergente", S "hint", S "ayuda"])
  , (S "form", [S "form", S "formulario", S "formularios", S "forms"])
  , (S "search", [S "search", S "búsqueda", S "busqueda", S "buscador"])
  , (S "avatar", [S "avatar", S "foto de perfil", S "imagen de usuario"])
  , (S "switch", [S "switch", S "interruptor", S "toggle"])
  , (S "stepper", [S "stepper", S "pasos", S "wizard", S "asistente"])
  , (S "sidebar", [S "sidebar", S "barra lateral", S "menú lateral", S "menu lateral"])
  , (S "divider", [S "divider", S "divisor", S "separador", S "línea", S "linea"])
  , (S "chip", [S "chip", S "chips", S "etiqueta pequeña"])
  , (S "date-picker", [S "date-picker", S "datepicker", S "selector de fecha", S "calendario", S "calendar"])
  , (S "file-upload", [S "file-upload", S "subir archivo", S "upload", S "carga de archivos"])
  , (S "autocomplete", [S "autocomplete", S "autocompletar", S "sugerencias"])
  ]

/-- Scan of the alias table inside `normalizeComponentName` (replit.md lines
139-148): the first group one of whose normalized variants equals, contains
or is contained in the normalized input yields its canonical key. -/
def aliasCanonScan (normalized : Str) : List (Str × List Str) → Option Str
  | [] => none
  | (canonical, aliases) :: rest =>
    if aliases.any (fun a =>
        let na := normalizeNoTrim a
        na = normalized || strIncludes normalized na || strIncludes na normalized) then
      some canonical
    else aliasCanonScan normalized rest

/-- `normalizeComponentName` (replit.md lines 133-150): falsy input gives
null; otherwise the canonical key of the first matching alias group, or the
normalized input itself. -/
def normalizeComponentName (input : Str) : Option Str :=
  if input = [] then none
  else
    let normalized := normalizeStr input
    match aliasCanonScan normalized COMPONENT_ALIASES with
    | some c => some c
    | none => some normalized

/-- Inner loop of `findComponentKey`'s alias phase (replit.md lines 171-180):
the first normalized variant of the group present in the catalog as a key, or
present with a `" (html)"` suffix, is returned. -/
def aliasInner (components : List (Str × Component)) : List Str → Option Str
  | [] => none
  | a :: rest =>
    let na := normalizeNoTrim a
    if containsA components na then some na
    else if containsA components (na ++ S " (html)") then some (na ++ S " (html)")
    else aliasInner components rest

/-- Outer loop of `findComponentKey`'s alias phase (replit.md lines 164-182):
a group matches when its canonical key equals `normalizeComponentName`'s
answer or one of its normalized variants equals the normalized query; a
matching group whose inner scan finds nothing does not stop the outer scan. -/
def aliasKeyScan (components : List (Str × Component)) (canonicalName : Option Str)
    (normalized : Str) : List (Str × List Str) → Option Str
  | [] => none
  | (canonical, aliases) :: rest =>
    let isMatch := canonicalName == some canonical
      || aliases.any (fun a => normalizeNoTrim a = normalized)
    if isMatch then
      match aliasInner components aliases with
      | some k => some k
      | none => aliasKeyScan components canonicalName normalized rest
    else aliasKeyScan components canonicalName normalized rest

/-- Fuzzy phase of `findComponentKey` (replit.md lines 184-189): first catalog
key whose mark-stripped form contains, or is contained in, the normalized
query.  Note the key is only mark-stripped, not lower-cased. -/
def fuzzyScan (normalized : Str) : List (Str × Component) → Option Str
  | [] => none
  | (k, _) :: rest =>
    let kn := stripMarksL k
    if strIncludes kn normalized || strIncludes normalized kn then some k
    else fuzzyScan normalized rest

/-- `findComponentKey` (replit.md lines 152-192): exact match on the
normalized query, then the alias phase, then the fuzzy substring phase. -/
def findComponentKey (components : List (Str × Component)) (searchTerm : Str) : Option Str :=
  if searchTerm = [] then none
  else
    let normalized := normalizeStr searchTerm
    if containsA components normalized then some normalized
    else
      let canonicalName := normalizeComponentName searchTerm
      match aliasKeyScan components canonicalName normalized COMPONENT_ALIASES with
      | some k => some k
      | none => fuzzyScan normalized components

/-- `CACHE_DURATION_MS = 24 * 60 * 60 * 1000` (24 hours). -/
def CACHE_DURATION_MS : Int := 24 * 60 * 60 * 1000

/-- The module-level cache slot `{ data, timestamp }` (replit.md lines 84-87).
`data` is `null` (none) until the first successful fetch+parse. -/
structure CacheState where
  data : Option Catalog
  timestamp : Int
deriving DecidableEq

/-- Is an `Except` result an error? -/
def isErr {ε α : Type} : Except ε α → Bool
  | .error _ => true
  | .ok _ => false

/-- `fetchLlmsTxt(forceRefresh)` (replit.md lines 371-390 / server-desy.js
lines 115-134), as a state transition.  The network is an oracle
`fetchResult : Option Str` — `some content` for a successful fetch of the
index document, `none` for a transport failure (`fetchUrl` rejecting).
Returns the result (`Except` models return vs. throw) and the cache slot
after the call. -/
def fetchLlmsTxt (st : CacheState) (now : Int) (fetchResult : Option Str)
    (forceRefresh : Bool) : Except Str Catalog × CacheState :=
  let cacheExpired : Bool := decide (now - st.timestamp > CACHE_DURATION_MS)
  match forceRefresh, cacheExpired, st.data with
  | false, false, some d => (Except.ok d, st)
  | _, _, _ =>
    match fetchResult with
    | some content =>
      let parsed := parseLlmsTxt content
      (Except.ok parsed, { data := some parsed, timestamp := now })
    | none =>
      match st.data with
      | some d => (Except.ok d, st)
      | none => (Except.error (S "Failed to fetch llms.txt"), st)

/-- Greedy `(.+)` search for `/^###\s+(.+)\s*\[#\]/` once the `\s+` run is
fixed: try the longest capture first; a capture of length `i` succeeds when
the remaining suffix consists of optional whitespace followed by `[#]`. -/
def anchorGo (r : Str) : Nat → Option Str
  | 0 => none
  | i + 1 =>
    if (S "[#]").isPrefixOf ((r.drop (i + 1)).dropWhile isWsChar) then some (r.take (i + 1))
    else anchorGo r i

/-- Backtracking over the `\s+` run of `/^###\s+(.+)\s*\[#\]/`: the run is
greedy, shrinking down to one character when the rest fails. -/
def anchorOuter (rest : Str) : Nat → Option Str
  | 0 => none
  | j + 1 =>
    let r := rest.drop (j + 1)
    match anchorGo r r.length with
    | some cap => some cap
    | none => anchorOuter rest j

/-- Capture group of `line.match(/^###\s+(.+)\s*\[#\]/)` (replit.md line 206). -/
def matchAnchor (line : Str) : Option Str :=
  if line.take 3 = S "###" then
    let rest := line.drop 3
    anchorOuter rest (rest.takeWhile isWsChar).length
  else none

/-- Capture group of `line.match(/^###\s+(.+)/)` (replit.md line 213): after
`###` a greedy whitespace run then at least one character; when the rest is
all whitespace, `\s+` backtracks and the capture is the last whitespace
character. -/
def matchPlain (line : Str) : Option Str :=
  if line.take 3 = S "###" then
    let rest := line.drop 3
    let w := (rest.takeWhile isWsChar).length
    if w = 0 then none
    else if w < rest.length then some (rest.drop w)
    else if 2 ≤ w then some (rest.drop (w - 1))
    else none
  else none

/-- One extracted example block (replit.md lines 211/218): a title plus the
last `html` and `nunjucks` code payloads seen under that title. -/
structure ExampleBlock where
  title : Str
  html : Option Str
  nunjucks : Option Str
  description : Str
deriving DecidableEq, Repr

/-- Kind of the currently open fenced code block. -/
inductive CBType where
  | html
  | nunjucks
deriving DecidableEq, Repr

/-- Loop state of `parseCodeBlocks` (replit.md lines 195-201). -/
structure CBState where
  examples : List ExampleBlock
  currentExample : Option ExampleBlock
  inCodeBlock : Bool
  codeBlockType : Option CBType
  codeBuffer : List Str
deriving DecidableEq, Repr

def initCBState : CBState := ⟨[], none, false, none, []⟩

/-- JS truthiness of a nullable string: `null` and `""` are falsy. -/
def truthyS : Option Str → Bool
  | some s => ¬ s.isEmpty
  | none => false

/-- Flush test of `parseCodeBlocks` (replit.md lines 207/214/246): the current
example is emitted only if it carries a truthy html or nunjucks payload. -/
def flushInto (examples : List ExampleBlock) : Option ExampleBlock → List ExampleBlock
  | some ex => if truthyS ex.html || truthyS ex.nunjucks then examples ++ [ex] else examples
  | none => examples

/-- One line of `parseCodeBlocks` (replit.md lines 203-244).  The heading
tests run first (anchored variant, then plain); a heading flushes the current
block and opens a new one.  The fence tests then run on the same line:
` ```html ` opens an html buffer, ` ```js `/` ```javascript ` a nunjucks
buffer, a bare ` ``` ` while inside a block commits the trimmed buffer into
the current example's field for the open kind, and any other line inside a
block is buffered. -/
def cbLine (st : CBState) (line : Str) : CBState :=
  let st1 :=
    match matchAnchor line with
    | some cap =>
      { st with
          examples := flushInto st.examples st.currentExample
          currentExample := some ⟨jsTrimL cap, none, none, []⟩ }
    | none =>
      match matchPlain line with
      | some cap =>
        { st with
            examples := flushInto st.examples st.currentExample
            currentExample := some ⟨jsTrimL cap, none, none, []⟩ }
      | none => st
  if (S "```html").isPrefixOf line then
    { st1 with inCodeBlock := true, codeBlockType := some .html, codeBuffer := [] }
  else if (S "```js").isPrefixOf line || (S "```javascript").isPrefixOf line then
    { st1 with inCodeBlock := true, codeBlockType := some .nunjucks, codeBuffer := [] }
  else if line = S "```" && st1.inCodeBlock then
    let st2 :=
      match st1.currentExample with
      | some ex =>
        let code := jsTrimL (joinNL st1.codeBuffer)
        let ex' :=
          match st1.codeBlockType with
          | some .html => { ex with html := some code }
          | some .nunjucks => { ex with nunjucks := some code }
          | none => ex
        { st1 with currentExample := some ex' }
      | none => st1
    { st2 with inCodeBlock := false, codeBlockType := none, codeBuffer := [] }
  else if st1.inCodeBlock then
    { st1 with codeBuffer := st1.codeBuffer ++ [line] }
  else st1

/-- `parseCodeBlocks` (replit.md lines 194-251): split into lines, run the
state machine, flush the final in-flight block if it carries code. -/
def parseCodeBlocks (markdown : Str) : List ExampleBlock :=
  let final := (splitNL markdown).foldl cbLine initCBState
  flushInto final.examples final.currentExample

/-- `list.join(sep)` of JS. -/
def joinWith (sep : Str) : List Str → Str
  | [] => []
  | [l] => l
  | l :: l2 :: rest => l ++ sep ++ joinWith sep (l2 :: rest)

/-- The `### title\n``` fenced section emitted per surviving block by
`formatCodeOutput` (replit.md line 271). -/
def renderBlock (format : CBType) (title code : Str) : Str :=
  S "### " ++ title ++ S "\n```" ++ (if format = .html then S "html" else S "js")
    ++ S "\n" ++ code ++ S "\n```"

/-- `formatCodeOutput` (replit.md lines 253-280).  A truthy variant filter
keeps the blocks whose normalized title contains the normalized filter or
vice versa, falling back to the unfiltered list when nothing survives; each
surviving block with a truthy payload for the requested format is rendered;
an empty rendering yields the fixed not-found sentinel. -/
def formatCodeOutput (examples : List ExampleBlock) (format : CBType)
    (variant : Option Str) : Str :=
  let examples : List ExampleBlock :=
    match variant with
    | some v =>
      if v ≠ [] then
        let variantLower := normalizeNoTrim v
        let filtered := examples.filter (fun (ex : ExampleBlock) =>
          let titleNorm := normalizeNoTrim ex.title
          strIncludes titleNorm variantLower || strIncludes variantLower titleNorm)
        if 0 < filtered.length then filtered else examples
      else examples
    | none => examples
  let output := examples.filterMap (fun (ex : ExampleBlock) =>
    match (match format with | .html => ex.html | .nunjucks => ex.nunjucks) with
    | some code => if code ≠ [] then some (renderBlock format ex.title code) else none
    | none => none)
  if output.length = 0 then
    S "No se encontraron ejemplos de código "
      ++ (if format = .html then S "HTML" else S "NUNJUCKS")
      ++ S " para este componente."
  else joinWith (S "\n\n") output

/-- The error payloads of the current `getComponentCode` (replit.md lines
392-419), structurally: which keys each payload embeds.  `errMissing` is the
missing-argument branch (lines 395-398) listing every catalog key;
`errNotFound` is the not-found branch (lines 402-419) listing at most five
suggestions, the first twenty keys, and the total used for the
`... y N más` tail. -/
inductive CCResult where
  | errMissing (available : List Str)
  | errNotFound (component : Str) (suggestions : List Str) (shown : List Str) (total : Nat)
  | ok (key : Str)
deriving DecidableEq, Repr

/-- Pure key-selection and error-payload layer of `getComponentCode`
(replit.md lines 392-421), before any network access: a falsy/missing
`component` argument yields the full-key-dump payload; an unresolvable name
yields the bounded suggestions payload; otherwise the resolved key. -/
def getComponentCodeSelect (components : List (Str × Component))
    (component : Option Str) : CCResult :=
  match component with
  | none => .errMissing (components.map (·.1))
  | some comp =>
    if comp = [] then .errMissing (components.map (·.1))
    else
      match findComponentKey components comp with
      | some key => .ok key
      | none =>
        let available := components.map (·.1)
        let searchNorm := normalizeNoTrim comp
        let suggestions := (available.filter (fun k =>
          let kNorm := stripMarksL k
          strIncludes kNorm (searchNorm.take 3) || strIncludes searchNorm (kNorm.take 3))).take 5
        .errNotFound comp suggestions (available.take 20) available.length

/-- The catalog keys a `getComponentCode` error payload embeds. -/
def listedKeys : CCResult → List Str
  | .errMissing available => available
  | .errNotFound _ suggestions shown _ => suggestions ++ shown
  | .ok _ => []

/-! ### Helper lemmas -/

theorem lookupA_append_left {α : Type} {m : List (Str × α)} {k : Str} {v : α}
    (h : lookupA m k = some v) (l : List (Str × α)) : lookupA (m ++ l) k = some v := by
  induction m with
  | nil => simp [lookupA] at h
  | cons p rest ih =>
    obtain ⟨k', v'⟩ := p
    by_cases hk : k' = k
    · simp [lookupA, hk] at h ⊢
      exact h
    · simp [lookupA, hk] at h ⊢
      exact ih h

theorem filter_eq_nil_of_all_not {α : Type} {p : α → Bool} {l : List α}
    (h : ∀ a ∈ l, p a = false) : l.filter p = [] := by
  induction l with
  | nil => rfl
  | cons a rest ih =>
    have ha := h a (List.mem_cons_self a rest)
    rw [List.filter_cons, ha]
    exact ih (fun b hb => h b (List.mem_cons_of_mem a hb))

/-- A dummy catalog entry used by concrete instances. -/
def mkComp (nm : String) : Component :=
  ⟨S nm, S "/componente-" ++ S nm, S nm, S "General", false, false, false, false⟩

/-! ### C1 — catalog-cache getter: error iff no cache and fetch fails -/

/-- C1: a `fetchLlmsTxt` call throws if and only if the fetch oracle fails
and no catalog was cached; whenever a catalog is cached and the refetch
fails — forced refresh included — the call returns the cached catalog and
leaves the cache slot unchanged. -/
theorem c1_cache_fallback (st : CacheState) (now : Int) (fetchResult : Option Str)
    (forceRefresh : Bool) :
    (isErr (fetchLlmsTxt st now fetchResult forceRefresh).1 = true ↔
      (fetchResult = none ∧ st.data = none)) ∧
    (∀ d, st.data = some d → fetchResult = none →
      fetchLlmsTxt st now fetchResult forceRefresh = (Except.ok d, st)) := by
  obtain ⟨data, ts⟩ := st
  cases hexp : decide (now - ts > CACHE_DURATION_MS) <;>
    cases data <;> cases fetchResult <;> cases forceRefresh <;>
      simp only [fetchLlmsTxt, hexp] <;> simp [isErr]

/-- Witness for C1 at a concrete populated cache, failing fetch, forced
refresh: the cached catalog is returned and the slot is unchanged. -/
theorem c1_cache_fallback_witness :
    fetchLlmsTxt ⟨some ⟨[], [(S "k", mkComp "k")]⟩, 0⟩ 99 none true
      = (Except.ok ⟨[], [(S "k", mkComp "k")]⟩, ⟨some ⟨[], [(S "k", mkComp "k")]⟩, 0⟩) :=
  (c1_cache_fallback ⟨some ⟨[], [(S "k", mkComp "k")]⟩, 0⟩ 99 none true).2
    ⟨[], [(S "k", mkComp "k")]⟩ rfl rfl

/-! ### C2 — resolver: exact match wins -/

/-- C2: whenever the component map holds a key equal to the normalized
query, `findComponentKey` returns that literal key through its first, exact
phase, before the alias scan or the fuzzy substring scan can run. -/
theorem c2_exact_match_precedence (components : List (Str × Component)) (q : Str)
    (hq : q ≠ []) (h : containsA components (normalizeStr q) = true) :
    findComponentKey components q = some (normalizeStr q) := by
  unfold findComponentKey
  simp [hq, h]

/-- Witness for C2: a catalog holding the literal key `"tab"` (which is also
an alias-group canonical with variants `tab`, `tabs`, `pestaña`, …) resolves
the query `"tab"` to the literal key. -/
theorem c2_exact_match_precedence_witness :
    findComponentKey [(S "tab", mkComp "tab")] (S "tab") = some (normalizeStr (S "tab")) :=
  c2_exact_match_precedence [(S "tab", mkComp "tab")] (S "tab") (by decide) (by decide)

/-! ### C7 — variant filter falls back to the unfiltered list -/

/-- C7: when no example block's normalized title contains the normalized
variant filter nor vice versa, `formatCodeOutput` with the filter emits
exactly what it emits without any filter — the full unfiltered list, not an
empty result. -/
theorem c7_variant_fallback (examples : List ExampleBlock) (format : CBType) (v : Str)
    (hv : v ≠ [])
    (h : ∀ ex ∈ examples,
      (strIncludes (normalizeNoTrim ex.title) (normalizeNoTrim v)
        || strIncludes (normalizeNoTrim v) (normalizeNoTrim ex.title)) = false) :
    formatCodeOutput examples format (some v) = formatCodeOutput examples format none := by
  unfold formatCodeOutput
  have hfil : examples.filter (fun (ex : ExampleBlock) =>
      strIncludes (normalizeNoTrim ex.title) (normalizeNoTrim v)
        || strIncludes (normalizeNoTrim v) (normalizeNoTrim ex.title)) = [] :=
    filter_eq_nil_of_all_not h
  simp [hv, hfil]

/-- Witness for C7: a one-block list and the non-matching filter `"zzz"`
render identically to the unfiltered call. -/
theorem c7_variant_fallback_witness :
    formatCodeOutput [⟨S "Primario", some (S "<a>"), none, []⟩] .html (some (S "zzz"))
      = formatCodeOutput [⟨S "Primario", some (S "<a>"), none, []⟩] .html none :=
  c7_variant_fallback [⟨S "Primario", some (S "<a>"), none, []⟩] .html (S "zzz")
    (by decide) (by decide)

/-! ### C3 — the index parser is total, skips malformed lines, and maps
whitespace-only documents to the empty catalog -/

theorem jsTrimL_eq_nil_of_all_ws {l : Str} (h : l.all isWsChar = true) : jsTrimL l = [] := by
  unfold jsTrimL
  rw [List.all_eq_true] at h
  have h1 : l.dropWhile isWsChar = [] := List.dropWhile_eq_nil_iff.mpr h
  simp [h1]

theorem mem_of_mem_splitNL : ∀ {s l : Str}, l ∈ splitNL s → ∀ {c : Char}, c ∈ l → c ∈ s := by
  intro s
  induction s with
  | nil =>
    intro l hl c hc
    simp [splitNL] at hl
    subst hl
    simp at hc
  | cons a rest ih =>
    intro l hl c hc
    simp only [splitNL] at hl
    by_cases ha : a = '\n'
    · simp only [ha, if_pos rfl] at hl
      rcases List.mem_cons.mp hl with rfl | hl
      · simp at hc
      · exact List.mem_cons_of_mem _ (ih hl hc)
    · simp only [if_neg ha] at hl
      rcases hsp : splitNL rest with _ | ⟨line, more⟩
      · rw [hsp] at hl
        simp at hl
        subst hl
        simp at hc
        simp [hc]
      · rw [hsp] at hl
        rcases List.mem_cons.mp hl with rfl | hl
        · rcases List.mem_cons.mp hc with rfl | hc2
          · exact List.mem_cons_self _ _
          · exact List.mem_cons_of_mem _
              (ih (by rw [hsp]; exact List.mem_cons_self _ _) hc2)
        · exact List.mem_cons_of_mem _
            (ih (by rw [hsp]; exact List.mem_cons_of_mem _ hl) hc)

theorem splitNL_all_ws {s : Str} (h : s.all isWsChar = true) :
    ∀ l ∈ splitNL s, l.all isWsChar = true := by
  intro l hl
  rw [List.all_eq_true] at h ⊢
  intro c hc
  exact h c (mem_of_mem_splitNL hl hc)

theorem parseLineNew_ws {st : PState} {line : Str} (h : line.all isWsChar = true) :
    parseLineNew st line = st := by
  unfold parseLineNew
  simp [jsTrimL_eq_nil_of_all_ws h]

theorem parseLineLegacy_ws {st : PState} {line : Str} (h : line.all isWsChar = true) :
    parseLineLegacy st line = st := by
  unfold parseLineLegacy
  simp [jsTrimL_eq_nil_of_all_ws h]

theorem foldl_const_of_fix {σ : Type} {f : σ → Str → σ} :
    ∀ (L : List Str) (st : σ), (∀ l ∈ L, ∀ s, f s l = s) → L.foldl f st = st := by
  intro L
  induction L with
  | nil => intro st _; rfl
  | cons a rest ih =>
    intro st h
    rw [List.foldl_cons, h a (List.mem_cons_self a rest) st]
    exact ih st (fun l hl s => h l (List.mem_cons_of_mem a hl) s)

/-- C3: both parser variants are total Lean functions (so parsing terminates
and never throws for any document); a whitespace-only or empty document
yields the empty catalog in both variants; and a trimmed bullet line on which
the markdown-link regex fails leaves the parser state untouched in both
variants — parsing never aborts mid-document. -/
theorem c3_parser_never_throws :
    (∀ content : Str, content.all isWsChar = true →
        parseLlmsTxt content = ⟨[], []⟩ ∧ parseLlmsTxtLegacy content = ⟨[], []⟩) ∧
    (∀ (st : PState) (line : Str),
        (S "- ").isPrefixOf (jsTrimL line) = true →
        parseMarkdownLink (stripWsDashWs (stripDashWs (jsTrimL line))) = none →
        parseLineNew st line = st) ∧
    (∀ (st : PState) (line : Str),
        (S "- ").isPrefixOf (jsTrimL line) = true →
        parseMarkdownLink ((jsTrimL line).drop 2) = none →
        parseLineLegacy st line = st) := by
  refine ⟨?_, ?_, ?_⟩
  · intro content h
    constructor
    · unfold parseLlmsTxt
      rw [foldl_const_of_fix _ _
        (fun l hl s => parseLineNew_ws (splitNL_all_ws h l hl))]
      rfl
    · unfold parseLlmsTxtLegacy
      rw [foldl_const_of_fix _ _
        (fun l hl s => parseLineLegacy_ws (splitNL_all_ws h l hl))]
      rfl
  · intro st line h1 h2
    obtain ⟨t, ht⟩ := List.isPrefixOf_iff_prefix.mp h1
    have hc : jsTrimL line = '-' :: ' ' :: t := ht.symm
    rw [hc] at h2
    have g1 : (S "## ").isPrefixOf ('-' :: ' ' :: t) = false := by simp [S, List.isPrefixOf]
    have g2 : (S "### ").isPrefixOf ('-' :: ' ' :: t) = false := by simp [S, List.isPrefixOf]
    have g3 : (S "- ").isPrefixOf ('-' :: ' ' :: t) = true := by simp [S, List.isPrefixOf]
    unfold parseLineNew
    rw [hc]
    simp [g1, g2, g3, h2]
  · intro st line h1 h2
    obtain ⟨t, ht⟩ := List.isPrefixOf_iff_prefix.mp h1
    have hc : jsTrimL line = '-' :: ' ' :: t := ht.symm
    rw [hc] at h2
    simp only [List.drop_succ_cons, List.drop_zero] at h2
    have g1 : (S "## ").isPrefixOf ('-' :: ' ' :: t) = false := by simp [S, List.isPrefixOf]
    have g2 : (S "### ").isPrefixOf ('-' :: ' ' :: t) = false := by simp [S, List.isPrefixOf]
    have g3 : (S "- ").isPrefixOf ('-' :: ' ' :: t) = true := by simp [S, List.isPrefixOf]
    unfold parseLineLegacy
    rw [hc]
    simp [g1, g2, g3, h2]

/-- Witness for C3 at concrete inputs: a whitespace-only document parses to
the empty catalog, and a malformed bullet line is a no-op on a concrete
parser state. -/
theorem c3_parser_never_throws_witness :
    (parseLlmsTxt (S " \n\t \n") = ⟨[], []⟩ ∧ parseLlmsTxtLegacy (S " \n\t \n") = ⟨[], []⟩) ∧
    parseLineNew ⟨[], [], []⟩ (S "- not a link") = ⟨[], [], []⟩ ∧
    parseLineLegacy ⟨[], [], []⟩ (S "- not a link") = ⟨[], [], []⟩ :=
  ⟨c3_parser_never_throws.1 (S " \n\t \n") (by decide),
   c3_parser_never_throws.2.1 ⟨[], [], []⟩ (S "- not a link") (by decide) (by decide),
   c3_parser_never_throws.2.2 ⟨[], [], []⟩ (S "- not a link") (by decide) (by decide)⟩

/-! ### C4 — duplicate component keys: first-seen-wins vs. legacy overwrite -/

theorem parseLineNew_keeps_components (st : PState) (line k : Str) (c : Component)
    (h : lookupA st.components k = some c) :
    lookupA (parseLineNew st line).components k = some c := by
  simp only [parseLineNew]
  repeat' split
  all_goals first
    | exact h
    | exact lookupA_append_left h _

/-- A document whose two bullet lines share the lower-cased key `botón`. -/
def c4doc : Str := S "## Cat\n- [Botón](/componente-b1-codigo)\n- [Botón](/componente-b2-codigo)"

/-- C4 counterexample: the legacy `parseLlmsTxt` of server-desy.js (lines
102-107, `components[key] = component` unguarded) stores the record of the
SECOND line with the duplicated key — the later line does overwrite the
global map entry, contradicting the claim for that cited parser. -/
theorem c4_first_seen_wins_counterexample :
    (lookupA (parseLlmsTxtLegacy c4doc).components (S "botón")).map Component.url
        = some (S "/componente-b2-codigo")
      ∧ (S "/componente-b2-codigo" : Str) ≠ S "/componente-b1-codigo" := by decide

/-- C4 (amended): in the current parser (replit.md lines 356-363, guarded by
`if (!components[key])`) the claim holds — no line ever replaces an existing
global map entry, and on the concrete duplicate-key document the map keeps
the first record while the later occurrence is still appended to its
category's list; the legacy server-desy.js parser instead overwrites the map
entry with the later record. -/
theorem c4_first_seen_wins_amended :
    (∀ (st : PState) (line k : Str) (c : Component),
        lookupA st.components k = some c →
        lookupA (parseLineNew st line).components k = some c) ∧
    ((lookupA (parseLlmsTxt c4doc).components (S "botón")).map Component.url
        = some (S "/componente-b1-codigo") ∧
      (lookupA (parseLlmsTxt c4doc).categories (S "Cat")).map
          (fun cat => cat.components.map Component.url)
        = some [S "/componente-b1-codigo", S "/componente-b2-codigo"]) := by
  refine ⟨parseLineNew_keeps_components, ?_, ?_⟩ <;> decide

/-- Witness for C4's amended theorem: a concrete state whose map already
holds key `x` is unchanged by a bullet line carrying the same key. -/
theorem c4_first_seen_wins_amended_witness :
    lookupA (parseLineNew ⟨[], [(S "x", mkComp "x")], []⟩
        (S "- [X](/componente-x2)")).components (S "x") = some (mkComp "x") :=
  c4_first_seen_wins_amended.1 ⟨[], [(S "x", mkComp "x")], []⟩
    (S "- [X](/componente-x2)") (S "x") (mkComp "x") (by decide)

/-! ### C8 — every mapped component sits in exactly one category list -/

theorem lookupA_mem {α : Type} {m : List (Str × α)} {k : Str} {v : α}
    (h : lookupA m k = some v) : (k, v) ∈ m := by
  induction m with
  | nil => simp [lookupA] at h
  | cons p rest ih =>
    obtain ⟨k', v'⟩ := p
    by_cases hk : k' = k
    · subst hk
      simp [lookupA] at h
      subst h
      exact List.mem_cons_self _ _
    · simp [lookupA, hk] at h
      exact List.mem_cons_of_mem _ (ih h)

theorem lookupA_eq_none_iff {α : Type} {m : List (Str × α)} {k : Str} :
    lookupA m k = none ↔ k ∉ m.map Prod.fst := by
  induction m with
  | nil => simp [lookupA]
  | cons p rest ih =>
    obtain ⟨k', v'⟩ := p
    by_cases hk : k' = k
    · subst hk
      constructor
      · intro h
        simp [lookupA] at h
      · intro h
        exact absurd (List.mem_cons_self _ _) h
    · constructor
      · intro h hmem
        rcases List.mem_cons.mp hmem with h1 | h2
        · exact hk h1.symm
        · exact (ih.mp (by simpa [lookupA, hk] using h)) h2
      · intro h
        simp only [lookupA, if_neg hk]
        exact ih.mpr (fun hmem => h (List.mem_cons_of_mem _ hmem))

theorem lookupA_append_right {α : Type} {m : List (Str × α)} {k : Str}
    (h : lookupA m k = none) (v : α) : lookupA (m ++ [(k, v)]) k = some v := by
  induction m with
  | nil => simp [lookupA]
  | cons p rest ih =>
    obtain ⟨k', v'⟩ := p
    by_cases hk : k' = k
    · simp [lookupA, hk] at h
    · simp [lookupA, hk] at h ⊢
      exact ih h

theorem mem_updateA {α : Type} {m : List (Str × α)} {k : Str} {f : α → α} {p : Str × α}
    (hp : p ∈ updateA m k f) :
    p ∈ m ∨ ∃ v, lookupA m k = some v ∧ p = (k, f v) := by
  induction m with
  | nil => simp [updateA] at hp
  | cons q rest ih =>
    obtain ⟨k', v'⟩ := q
    by_cases hk : k' = k
    · subst hk
      simp only [updateA, if_pos rfl] at hp
      rcases List.mem_cons.mp hp with rfl | hp2
      · exact Or.inr ⟨v', by simp [lookupA], rfl⟩
      · exact Or.inl (List.mem_cons_of_mem _ hp2)
    · simp only [updateA, if_neg hk] at hp
      rcases List.mem_cons.mp hp with rfl | hp2
      · exact Or.inl (List.mem_cons_self _ _)
      · rcases ih hp2 with h1 | ⟨v, hv, rfl⟩
        · exact Or.inl (List.mem_cons_of_mem _ h1)
        · exact Or.inr ⟨v, by simp [lookupA, hk, hv], rfl⟩

theorem lookupA_updateA_self {α : Type} (m : List (Str × α)) (k : Str) (f : α → α) :
    lookupA (updateA m k f) k = (lookupA m k).map f := by
  induction m with
  | nil => simp [updateA, lookupA]
  | cons q rest ih =>
    obtain ⟨k', v'⟩ := q
    by_cases hk : k' = k
    · simp [updateA, lookupA, hk]
    · simp [updateA, lookupA, hk, ih]

theorem lookupA_updateA_ne {α : Type} (m : List (Str × α)) (k k' : Str) (f : α → α)
    (h : k ≠ k') : lookupA (updateA m k f) k' = lookupA m k' := by
  induction m with
  | nil => simp [updateA]
  | cons q rest ih =>
    obtain ⟨k'', v''⟩ := q
    by_cases hk : k'' = k
    · subst hk
      simp [updateA, lookupA, h]
    · by_cases hk2 : k'' = k'
      · subst hk2
        simp [updateA, lookupA, hk, Ne.symm h]
      · simp [updateA, lookupA, hk, hk2, ih]

theorem updateA_map_fst {α : Type} (m : List (Str × α)) (k : Str) (f : α → α) :
    (updateA m k f).map Prod.fst = m.map Prod.fst := by
  induction m with
  | nil => rfl
  | cons q rest ih =>
    obtain ⟨k', v'⟩ := q
    by_cases hk : k' = k
    · simp [updateA, hk]
    · simp [updateA, hk, ih]

/-- Parser-state invariant behind C8 (current parser): category entries are
named by their key, every record in a category's list carries that category's
name, category keys are unique, every mapped component whose category is not
the `General` sentinel is in its category's list, and a truthy current
category is always registered. -/
structure ParserInv (st : PState) : Prop where
  catName : ∀ p ∈ st.categories, (p : Str × Category).2.name = p.1
  catMembers : ∀ p ∈ st.categories, ∀ rec ∈ (p : Str × Category).2.components, rec.category = p.1
  catNodup : (st.categories.map Prod.fst).Nodup
  compListed : ∀ p ∈ st.components, (p : Str × Component).2.category ≠ S "General" →
    ∃ cat, lookupA st.categories p.2.category = some cat ∧ p.2 ∈ cat.components
  curReg : st.currentCategory ≠ [] → containsA st.categories st.currentCategory = true

theorem parserInv_init : ParserInv initPState := by
  constructor <;> simp [initPState, containsA, lookupA]


theorem containsA_false_lookupA {α : Type} {m : List (Str × α)} {k : Str}
    (h : containsA m k = false) : lookupA m k = none := by
  unfold containsA at h
  cases hl : lookupA m k
  · rfl
  · rw [hl] at h
    simp at h

theorem containsA_true_lookupA {α : Type} {m : List (Str × α)} {k : Str}
    (h : containsA m k = true) : ∃ v, lookupA m k = some v := by
  unfold containsA at h
  cases hl : lookupA m k
  · rw [hl] at h
    simp at h
  · exact ⟨_, rfl⟩

/-- A heading line preserves the invariant: it registers the (possibly new)
category and makes it current. -/
theorem parserInv_register (st : PState) (inv : ParserInv st) (cc desc : Str) :
    ParserInv { st with
      currentCategory := cc
      categories := if cc ≠ [] && ¬ containsA st.categories cc then
          st.categories ++ [(cc, ⟨cc, desc, []⟩)] else st.categories } := by
  obtain ⟨hname, hmem, hnodup, hlisted, hcur⟩ := inv
  by_cases hguard : (cc ≠ [] && ¬ containsA st.categories cc : Bool) = true
  · rw [if_pos hguard]
    have hcont : containsA st.categories cc = false := by
      cases hb : containsA st.categories cc
      · rfl
      · rw [hb] at hguard
        simp at hguard
    have hnone := containsA_false_lookupA hcont
    refine ⟨?_, ?_, ?_, ?_, ?_⟩
    · intro p hp
      rcases List.mem_append.mp hp with h | h
      · exact hname p h
      · rcases List.mem_singleton.mp h with rfl
        rfl
    · intro p hp rec hrec
      rcases List.mem_append.mp hp with h | h
      · exact hmem p h rec hrec
      · rcases List.mem_singleton.mp h with rfl
        simp at hrec
    · rw [List.map_append]
      refine List.nodup_append.mpr ⟨hnodup, List.nodup_singleton _, ?_⟩
      intro a ha hb
      rcases List.mem_singleton.mp hb with rfl
      exact (lookupA_eq_none_iff.mp hnone) ha
    · intro p hp hgen
      obtain ⟨cat, hl, hm⟩ := hlisted p hp hgen
      exact ⟨cat, lookupA_append_left hl _, hm⟩
    · intro _
      simp [containsA, lookupA_append_right hnone]
  · rw [if_neg hguard]
    refine ⟨hname, hmem, hnodup, hlisted, ?_⟩
    intro h
    cases hb : containsA st.categories cc
    · exact absurd (by simp [h, hb]) hguard
    · rfl

/-- A qualifying bullet line preserves the invariant: the new record goes to
the global map only when its key is fresh, and into the current category's
list exactly when a truthy, registered category is active. -/
theorem parserInv_bullet (st : PState) (inv : ParserInv st) (key : Str) (comp : Component)
    (hcomp : comp.category = if st.currentCategory ≠ [] then st.currentCategory
      else S "General") :
    ParserInv { st with
      components := if containsA st.components key then st.components
        else st.components ++ [(key, comp)],
      categories := if st.currentCategory ≠ [] && containsA st.categories st.currentCategory then
          updateA st.categories st.currentCategory
            (fun cat => { cat with components := cat.components ++ [comp] })
        else st.categories } := by
  obtain ⟨hname, hmem, hnodup, hlisted, hcur⟩ := inv
  by_cases hcc : st.currentCategory = []
  · have hgF : ¬ ((st.currentCategory ≠ [] && containsA st.categories st.currentCategory
        : Bool) = true) := by
      simp [hcc]
    rw [if_neg hgF]
    have hcompG : comp.category = S "General" := by
      rw [hcomp, if_neg (by simp [hcc])]
    refine ⟨hname, hmem, hnodup, ?_, ?_⟩
    · intro p hp hgen
      split at hp
      · exact hlisted p hp hgen
      · rcases List.mem_append.mp hp with h | h
        · exact hlisted p h hgen
        · rcases List.mem_singleton.mp h with rfl
          exact absurd hcompG hgen
    · intro h
      exact absurd hcc h
  · have hreg : containsA st.categories st.currentCategory = true := hcur hcc
    obtain ⟨v, hv⟩ := containsA_true_lookupA hreg
    have hgT : (st.currentCategory ≠ [] && containsA st.categories st.currentCategory
        : Bool) = true := by
      simp [hcc, hreg]
    rw [if_pos hgT]
    have hcompC : comp.category = st.currentCategory := by
      rw [hcomp, if_pos hcc]
    refine ⟨?_, ?_, ?_, ?_, ?_⟩
    · intro p hp
      rcases mem_updateA hp with h | ⟨w, hw, rfl⟩
      · exact hname p h
      · exact hname (st.currentCategory, w) (lookupA_mem hw)
    · intro p hp rec hrec
      rcases mem_updateA hp with h | ⟨w, hw, rfl⟩
      · exact hmem p h rec hrec
      · rcases List.mem_append.mp hrec with h | h
        · exact hmem (st.currentCategory, w) (lookupA_mem hw) rec h
        · rcases List.mem_singleton.mp h with rfl
          exact hcompC
    · rw [updateA_map_fst]
      exact hnodup
    · intro p hp hgen
      have base : ∀ q ∈ st.components, (q : Str × Component).2.category ≠ S "General" →
          ∃ cat, lookupA (updateA st.categories st.currentCategory
              (fun cat => { cat with components := cat.components ++ [comp] }))
            q.2.category = some cat ∧ q.2 ∈ cat.components := by
        intro q hq hqgen
        obtain ⟨cat, hl, hm⟩ := hlisted q hq hqgen
        by_cases hqc : st.currentCategory = q.2.category
        · rw [← hqc] at hl
          refine ⟨{ cat with components := cat.components ++ [comp] }, ?_,
            List.mem_append_left _ hm⟩
          rw [← hqc, lookupA_updateA_self, hl]
          rfl
        · rw [lookupA_updateA_ne _ _ _ _ hqc]
          exact ⟨cat, hl, hm⟩
      split at hp
      · exact base p hp hgen
      · rcases List.mem_append.mp hp with h | h
        · exact base p h hgen
        · rcases List.mem_singleton.mp h with rfl
          refine ⟨{ v with components := v.components ++ [comp] }, ?_, ?_⟩
          · rw [hcompC, lookupA_updateA_self, hv]
            rfl
          · exact List.mem_append_right _ (List.mem_singleton.mpr rfl)
    · intro h
      simp [containsA, lookupA_updateA_self, hv]

theorem parseLineNew_preserves_inv (st : PState) (line : Str) (inv : ParserInv st) :
    ParserInv (parseLineNew st line) := by
  simp only [parseLineNew]
  split
  · exact inv
  · split
    · exact parserInv_register st inv _ _
    · split
      · exact parserInv_register st inv _ _
      · split
        · split
          · exact inv
          · split
            · exact parserInv_bullet st inv _ _ rfl
            · exact inv
        · exact inv

theorem foldl_parseLineNew_inv :
    ∀ (L : List Str) (st : PState), ParserInv st → ParserInv (L.foldl parseLineNew st) := by
  intro L
  induction L with
  | nil => intro st inv; exact inv
  | cons a rest ih =>
    intro st inv
    rw [List.foldl_cons]
    exact ih _ (parseLineNew_preserves_inv st a inv)

/-- The category entries whose component list contains `c`. -/
def categoriesContaining (cats : List (Str × Category)) (c : Component) :
    List (Str × Category) :=
  cats.filter (fun e => decide (c ∈ e.2.components))

theorem containing_length_le_one {cats : List (Str × Category)} {c : Component}
    (hmem : ∀ p ∈ cats, ∀ rec ∈ (p : Str × Category).2.components, rec.category = p.1)
    (hnodup : (cats.map Prod.fst).Nodup) :
    (categoriesContaining cats c).length ≤ 1 := by
  induction cats with
  | nil => simp [categoriesContaining]
  | cons p rest ih =>
    obtain ⟨k', cat'⟩ := p
    have hnd : k' ∉ rest.map Prod.fst ∧ (rest.map Prod.fst).Nodup :=
      List.nodup_cons.mp hnodup
    have hmem' : ∀ q ∈ rest, ∀ rec ∈ (q : Str × Category).2.components, rec.category = q.1 :=
      fun q hq => hmem q (List.mem_cons_of_mem _ hq)
    by_cases hc : c ∈ cat'.components
    · have hcat : c.category = k' := hmem _ (List.mem_cons_self _ _) c hc
      have hrest : rest.filter (fun e => decide (c ∈ e.2.components)) = [] := by
        apply filter_eq_nil_of_all_not
        intro q hq
        by_cases hcq : c ∈ q.2.components
        · exfalso
          have h1 : c.category = q.1 := hmem' q hq c hcq
          have h2 : q.1 = k' := by rw [← h1, hcat]
          have h3 : q.1 ∈ rest.map Prod.fst := List.mem_map_of_mem _ hq
          rw [h2] at h3
          exact hnd.1 h3
        · simp [hcq]
      simp [categoriesContaining, List.filter_cons, hc, hrest]
    · have : categoriesContaining ((k', cat') :: rest) c = categoriesContaining rest c := by
        simp [categoriesContaining, List.filter_cons, hc]
      rw [this]
      exact ih hmem' hnd.2

theorem containing_length_eq_one {cats : List (Str × Category)} {c : Component}
    (hmem : ∀ p ∈ cats, ∀ rec ∈ (p : Str × Category).2.components, rec.category = p.1)
    (hnodup : (cats.map Prod.fst).Nodup)
    {cat : Category} (hl : lookupA cats c.category = some cat) (hin : c ∈ cat.components) :
    (categoriesContaining cats c).length = 1 := by
  have hle := containing_length_le_one hmem hnodup (c := c)
  have hpos : 0 < (categoriesContaining cats c).length := by
    have hmemf : (c.category, cat) ∈ categoriesContaining cats c :=
      List.mem_filter.mpr ⟨lookupA_mem hl, by simpa using hin⟩
    exact List.length_pos.mpr (List.ne_nil_of_mem hmemf)
  omega

/-- A concrete document whose only component appears under a `### ` heading:
the legacy parser sets the category but never registers it. -/
def c8doc : Str := S "### Cat\n- [X](/componente-x-codigo)"

/-- The record the legacy parser builds for `c8doc`'s bullet line. -/
def c8comp : Component :=
  ⟨S "X", S "/componente-x-codigo", S "X", S "Cat", true, false, false, false⟩

/-- C8 counterexample: in the legacy server-desy.js parser (cited lines
80-108), a component parsed under a `### ` heading lands in the global map
with category `Cat` — not the `General` sentinel — yet in no category's
component list at all (the heading was never registered), so it is not in
exactly one category list. -/
theorem c8_one_category_counterexample :
    lookupA (parseLlmsTxtLegacy c8doc).components (S "x") = some c8comp
      ∧ c8comp.category ≠ S "General"
      ∧ (categoriesContaining (parseLlmsTxtLegacy c8doc).categories c8comp).length = 0 := by
  decide

/-- C8 (amended): for the current parser (replit.md lines 304-369) the
invariant holds — every component reachable through the component-key map
whose category is not the `General` sentinel appears in exactly one
category's component list (the category named by its `category` field), and
a `General`-carrying component appears in at most one (only when a literal
`General` category exists); the legacy server-desy.js parser violates the
claim because `### ` headings set the current category without registering
it. -/
theorem c8_one_category_amended :
    (∀ (content k : Str) (c : Component),
        lookupA (parseLlmsTxt content).components k = some c →
        c.category ≠ S "General" →
        (categoriesContaining (parseLlmsTxt content).categories c).length = 1) ∧
    (∀ (content k : Str) (c : Component),
        lookupA (parseLlmsTxt content).components k = some c →
        (categoriesContaining (parseLlmsTxt content).categories c).length ≤ 1) := by
  have base : ∀ content : Str, ParserInv ((splitNL content).foldl parseLineNew initPState) :=
    fun content => foldl_parseLineNew_inv _ _ parserInv_init
  constructor
  · intro content k c hl hgen
    obtain ⟨cat, hcat, hin⟩ := (base content).compListed (k, c) (lookupA_mem hl) hgen
    exact containing_length_eq_one (base content).catMembers (base content).catNodup hcat hin
  · intro content k c _
    exact containing_length_le_one (base content).catMembers (base content).catNodup

/-- Witness for C8's amended theorem: the component parsed under a `## `
heading by the current parser is listed in exactly one category. -/
theorem c8_one_category_amended_witness :
    (categoriesContaining
        (parseLlmsTxt (S "## Cat\n- [X](/componente-x-codigo)")).categories c8comp).length
      = 1 :=
  c8_one_category_amended.1 (S "## Cat\n- [X](/componente-x-codigo)") (S "x") c8comp
    (by decide) (by decide)

/-! ### C5 — bilingual alias resolution for botón/button -/

/-- First alias of the `button` group present in the catalog (or present
with the `" (html)"` suffix), exactly as `findComponentKey`'s alias phase
scans that group. -/
def buttonGroupHit (components : List (Str × Component)) : Option Str :=
  aliasInner components [S "button", S "botón", S "botones", S "boton"]

theorem aliasKeyScan_head_match (components : List (Str × Component))
    (cn : Option Str) (norm : Str) (canonical : Str) (aliases : List Str)
    (rest : List (Str × List Str))
    (hmatch : (cn == some canonical
      || aliases.any (fun a => normalizeNoTrim a = norm)) = true) :
    aliasKeyScan components cn norm ((canonical, aliases) :: rest)
      = match aliasInner components aliases with
        | some k => some k
        | none => aliasKeyScan components cn norm rest := by
  conv_lhs => unfold aliasKeyScan
  rw [if_pos hmatch]

/-- C5 counterexample: `botón` and `button` are registered variants of the
single `button` alias group, yet on a catalog that carries both literal keys
`button` and `boton` the two queries resolve to different canonical keys —
the exact-match phase shadows the alias group. -/
theorem c5_bilingual_counterexample :
    lookupA COMPONENT_ALIASES (S "button")
        = some [S "button", S "botón", S "botones", S "boton"]
      ∧ findComponentKey [(S "button", mkComp "a"), (S "boton", mkComp "b")] (S "botón")
          = some (S "boton")
      ∧ findComponentKey [(S "button", mkComp "a"), (S "boton", mkComp "b")] (S "button")
          = some (S "button")
      ∧ (S "boton" : Str) ≠ S "button" := by decide

/-- C5 (amended): bilingual equivalence holds once the exact-match phase is
out of the way — whenever neither normalized query (`boton`, `button`) is
itself a literal catalog key and the button alias group has a hit in the
catalog, the queries `botón` and `button` resolve to that same key. -/
theorem c5_bilingual_amended (components : List (Str × Component)) (k : Str)
    (h1 : containsA components (S "boton") = false)
    (h2 : containsA components (S "button") = false)
    (h3 : buttonGroupHit components = some k) :
    findComponentKey components (S "botón") = some k
      ∧ findComponentKey components (S "button") = some k := by
  constructor
  · unfold findComponentKey
    rw [if_neg (by decide : ¬ (S "botón" : Str) = [])]
    rw [show normalizeStr (S "botón") = S "boton" from by decide]
    rw [if_neg (by simp [h1])]
    rw [show normalizeComponentName (S "botón") = some (S "button") from by decide]
    simp only [COMPONENT_ALIASES]
    rw [aliasKeyScan_head_match _ _ _ _ _ _ (by decide)]
    rw [show aliasInner components [S "button", S "botón", S "botones", S "boton"]
      = some k from h3]
  · unfold findComponentKey
    rw [if_neg (by decide : ¬ (S "button" : Str) = [])]
    rw [show normalizeStr (S "button") = S "button" from by decide]
    rw [if_neg (by simp [h2])]
    rw [show normalizeComponentName (S "button") = some (S "button") from by decide]
    simp only [COMPONENT_ALIASES]
    rw [aliasKeyScan_head_match _ _ _ _ _ _ (by decide)]
    rw [show aliasInner components [S "button", S "botón", S "botones", S "boton"]
      = some k from h3]

/-- Witness for C5's amended theorem: with only the key `button (html)` in
the catalog, both `botón` and `button` resolve to `button (html)` through
the alias group. -/
theorem c5_bilingual_amended_witness :
    findComponentKey [(S "button (html)", mkComp "button")] (S "botón")
        = some (S "button (html)")
      ∧ findComponentKey [(S "button (html)", mkComp "button")] (S "button")
        = some (S "button (html)") :=
  c5_bilingual_amended [(S "button (html)", mkComp "button")] (S "button (html)")
    (by decide) (by decide) (by decide)

/-! ### C9 — bounded vs. unbounded key lists in error payloads -/

/-- Catalog with `n` distinct dummy components keyed `k`, `kk`, `kkk`, … -/
def mkCat (n : Nat) : List (Str × Component) :=
  (List.range n).map (fun i => (List.replicate (i + 1) 'k', mkComp "k"))

/-- C9 counterexample: there is no fixed bound on the number of catalog keys
an error payload of `getComponentCode` lists — its missing-argument branch
(replit.md lines 395-398) embeds every key of the catalog, so a catalog
with B+1 components defeats any candidate bound B. -/
theorem c9_bounded_counterexample :
    ¬ ∃ B : Nat, ∀ (components : List (Str × Component)) (arg : Option Str),
        (listedKeys (getComponentCodeSelect components arg)).length ≤ B := by
  rintro ⟨B, hB⟩
  have h := hB (mkCat (B + 1)) none
  simp [getComponentCodeSelect, listedKeys, mkCat] at h

/-- C9 (amended): the component-not-found payload is bounded — at most five
suggestions and at most twenty listed keys (plus a total for the `… y N más`
tail) — but the missing-argument payload lists the full, unbounded catalog
key list (the changelog records the removal of the earlier 10-key cap as
intentional), so not every error path is bounded. -/
theorem c9_bounded_amended :
    (∀ (components : List (Str × Component)) (arg q : Str)
        (sugg shown : List Str) (total : Nat),
        getComponentCodeSelect components (some arg)
            = CCResult.errNotFound q sugg shown total →
        sugg.length ≤ 5 ∧ shown.length ≤ 20) ∧
    (∀ components : List (Str × Component),
        getComponentCodeSelect components none
          = CCResult.errMissing (components.map Prod.fst)) := by
  constructor
  · intro components arg q sugg shown total h
    unfold getComponentCodeSelect at h
    split at h
    · simp at h
    · split at h
      · simp at h
      · split at h
        · simp at h
        · rw [CCResult.errNotFound.injEq] at h
          obtain ⟨-, hs, hsh, -⟩ := h
          constructor
          · rw [← hs]
            exact List.length_take_le _ _
          · rw [← hsh]
            exact List.length_take_le _ _
  · intro components
    rfl

/-- Witness for C9's amended theorem at a one-component catalog and an
unresolvable query: zero suggestions and one shown key, within the bounds. -/
theorem c9_bounded_amended_witness :
    ([] : List Str).length ≤ 5 ∧ [S "ka"].length ≤ 20 :=
  c9_bounded_amended.1 [(S "ka", mkComp "ka")] (S "zzzz") (S "zzzz") [] [S "ka"] 1 (by decide)

/-! ### C10 — queries that normalize to the empty string -/

/-- C10 counterexample: the whitespace query `" "` normalizes to the empty
string, but on a catalog whose first key is `modal` and which also holds
`button`, the resolver returns `button` through the ALIAS phase (every alias
contains the empty string, so `normalizeComponentName` yields the first
group's canonical key) — not the catalog's first key via the fuzzy phase. -/
theorem c10_empty_query_counterexample :
    findComponentKey [(S "modal", mkComp "modal"), (S "button", mkComp "button")] (S " ")
        = some (S "button")
      ∧ ([(S "modal", mkComp "modal"), (S "button", mkComp "button")].map Prod.fst).head?
          = some (S "modal")
      ∧ (S "button" : Str) ≠ S "modal" := by decide

theorem strIncludes_nil_needle (hay : Str) : strIncludes hay [] = true := by
  cases hay <;> simp [strIncludes, List.isPrefixOf]

theorem fuzzyScan_nil_query (components : List (Str × Component)) :
    fuzzyScan [] components = (components.map Prod.fst).head? := by
  cases components with
  | nil => rfl
  | cons p rest =>
    obtain ⟨k, c⟩ := p
    simp [fuzzyScan, strIncludes_nil_needle]

theorem aliasKeyScan_none (components : List (Str × Component)) (cn : Option Str)
    (norm : Str) :
    ∀ gs : List (Str × List Str),
      gs.all (fun g => !(cn == some g.1
        || g.2.any (fun a => normalizeNoTrim a = norm))) = true →
      aliasKeyScan components cn norm gs = none := by
  intro gs
  induction gs with
  | nil => intro _; rfl
  | cons g rest ih =>
    intro h
    rw [List.all_cons, Bool.and_eq_true] at h
    obtain ⟨hg, hrest⟩ := h
    obtain ⟨canonical, aliases⟩ := g
    conv_lhs => unfold aliasKeyScan
    rw [if_neg (by simp only [Bool.not_eq_true'] at hg; simp [hg])]
    exact ih hrest

/-- C10 (amended): for a truthy query whose normalization is empty (and a
catalog without an empty-string key), the alias phase fires before the fuzzy
phase: `normalizeComponentName` returns the first alias group's canonical
key `button`, so a catalog key of the button group (or its `" (html)"`
variant) is returned when one exists, and only otherwise does the fuzzy
phase return the catalog's first key (none for an empty catalog). -/
theorem c10_empty_query_amended (components : List (Str × Component)) (q : Str)
    (hq : q ≠ []) (hn : normalizeStr q = [])
    (hkey : containsA components [] = false) :
    findComponentKey components q
      = (match buttonGroupHit components with
         | some k => some k
         | none => (components.map Prod.fst).head?) := by
  have hscan : aliasKeyScan components (some (S "button")) [] COMPONENT_ALIASES
      = buttonGroupHit components := by
    simp only [COMPONENT_ALIASES]
    rw [aliasKeyScan_head_match _ _ _ _ _ _ (by decide)]
    unfold buttonGroupHit
    cases hb : aliasInner components [S "button", S "botón", S "botones", S "boton"] with
    | some k => rfl
    | none => exact aliasKeyScan_none components (some (S "button")) [] _ (by decide)
  have hcanon : normalizeComponentName q = some (S "button") := by
    unfold normalizeComponentName
    rw [if_neg hq, hn]
    decide
  unfold findComponentKey
  rw [if_neg hq, hn, if_neg (by simp [hkey]), hcanon]
  simp only [hscan]
  cases hb : buttonGroupHit components with
  | some k => rfl
  | none => exact fuzzyScan_nil_query components

/-- Witness for C10's amended theorem: on a catalog holding only `modal`,
the whitespace query resolves to `modal` (the first key, via the fuzzy
phase, since the button group has no hit). -/
theorem c10_empty_query_amended_witness :
    findComponentKey [(S "modal", mkComp "modal")] (S " ")
      = (match buttonGroupHit [(S "modal", mkComp "modal")] with
         | some k => some k
         | none => ([(S "modal", mkComp "modal")].map Prod.fst).head?) :=
  c10_empty_query_amended [(S "modal", mkComp "modal")] (S " ")
    (by decide) (by decide) (by decide)

/-! ### C6 — two titled sections extract to two example blocks -/

theorem drop_length_takeWhile (p : Char → Bool) :
    ∀ l : Str, l.drop (l.takeWhile p).length = l.dropWhile p := by
  intro l
  induction l with
  | nil => rfl
  | cons c rest ih =>
    by_cases hc : p c = true
    · simp [List.takeWhile_cons, List.dropWhile_cons, hc, ih]
    · simp [List.takeWhile_cons, List.dropWhile_cons, hc]

theorem dropWhile_idem (p : Char → Bool) (l : Str) :
    (l.dropWhile p).dropWhile p = l.dropWhile p := by
  induction l with
  | nil => rfl
  | cons c rest ih =>
    by_cases hc : p c = true
    · simp [List.dropWhile_cons, hc, ih]
    · simp [List.dropWhile_cons, hc]

theorem jsTrimL_dropWhile (t : Str) : jsTrimL (t.dropWhile isWsChar) = jsTrimL t := by
  unfold jsTrimL
  rw [dropWhile_idem]

theorem dropWhile_ne_nil_of_trim {t : Str} (h : jsTrimL t ≠ []) :
    t.dropWhile isWsChar ≠ [] := by
  intro he
  apply h
  unfold jsTrimL
  rw [he]
  rfl

theorem strIncludes_iff_drop : ∀ l n : Str,
    strIncludes l n = true ↔ ∃ i, n.isPrefixOf (l.drop i) = true := by
  intro l
  induction l with
  | nil =>
    intro n
    constructor
    · intro h
      cases n with
      | nil => exact ⟨0, rfl⟩
      | cons c m => simp [strIncludes] at h
    · rintro ⟨i, hi⟩
      cases n with
      | nil => rfl
      | cons c m => simp [List.isPrefixOf] at hi
  | cons c rest ih =>
    intro n
    constructor
    · intro h
      rw [show strIncludes (c :: rest) n
          = (n.isPrefixOf (c :: rest) || strIncludes rest n) from rfl] at h
      rcases Bool.or_eq_true_iff.mp h with h1 | h2
      · exact ⟨0, h1⟩
      · obtain ⟨i, hi⟩ := (ih n).mp h2
        exact ⟨i + 1, hi⟩
    · rintro ⟨i, hi⟩
      rw [show strIncludes (c :: rest) n
          = (n.isPrefixOf (c :: rest) || strIncludes rest n) from rfl]
      cases i with
      | zero =>
        rw [List.drop_zero] at hi
        simp [hi]
      | succ j =>
        rw [List.drop_succ_cons] at hi
        simp [(ih n).mpr ⟨j, hi⟩]

theorem strIncludes_drop_mono {l n : Str} {i : Nat}
    (h : strIncludes (l.drop i) n = true) : strIncludes l n = true := by
  obtain ⟨j, hj⟩ := (strIncludes_iff_drop _ n).mp h
  rw [List.drop_drop] at hj
  exact (strIncludes_iff_drop _ n).mpr ⟨i + j, hj⟩

theorem anchorGo_none {r : Str} (hr : strIncludes r (S "[#]") = false) :
    ∀ n, anchorGo r n = none := by
  intro n
  induction n with
  | zero => rfl
  | succ i ih =>
    unfold anchorGo
    rw [if_neg ?hcond]
    · exact ih
    case hcond =>
      intro hp
      rw [← drop_length_takeWhile isWsChar (r.drop (i + 1)), List.drop_drop] at hp
      have := (strIncludes_iff_drop r (S "[#]")).mpr ⟨_, hp⟩
      rw [hr] at this
      exact Bool.false_ne_true this

theorem anchorOuter_none {rest : Str} (hr : strIncludes rest (S "[#]") = false) :
    ∀ j, anchorOuter rest j = none := by
  intro j
  induction j with
  | zero => rfl
  | succ i ih =>
    simp only [anchorOuter]
    have hdrop : strIncludes (rest.drop (i + 1)) (S "[#]") = false := by
      cases hb : strIncludes (rest.drop (i + 1)) (S "[#]")
      · rfl
      · rw [strIncludes_drop_mono hb] at hr
        simp at hr
    rw [anchorGo_none hdrop]
    exact ih

theorem matchAnchor_not_heading {l : Str} (h : l.take 3 ≠ S "###") :
    matchAnchor l = none := by
  unfold matchAnchor
  rw [if_neg h]

theorem matchPlain_not_heading {l : Str} (h : l.take 3 ≠ S "###") :
    matchPlain l = none := by
  unfold matchPlain
  rw [if_neg h]

theorem matchAnchor_heading (t : Str) (ha : strIncludes t (S "[#]") = false) :
    matchAnchor (S "### " ++ t) = none := by
  simp only [matchAnchor]
  rw [if_pos (show ((S "### " ++ t : Str)).take 3 = S "###" from rfl)]
  rw [show ((S "### " ++ t : Str).drop 3) = ' ' :: t from rfl]
  exact anchorOuter_none (show strIncludes (' ' :: t) (S "[#]") = false from ha) _

theorem matchPlain_heading (t : Str) (ht : jsTrimL t ≠ []) :
    matchPlain (S "### " ++ t) = some (t.dropWhile isWsChar) := by
  have hd := dropWhile_ne_nil_of_trim ht
  have hsplit : (t.takeWhile isWsChar).length + (t.dropWhile isWsChar).length = t.length := by
    rw [← List.length_append, List.takeWhile_append_dropWhile]
  have hdl : 0 < (t.dropWhile isWsChar).length := List.length_pos.mpr hd
  simp only [matchPlain]
  rw [if_pos (show ((S "### " ++ t : Str)).take 3 = S "###" from rfl)]
  rw [show ((S "### " ++ t : Str).drop 3) = ' ' :: t from rfl]
  rw [show ((' ' :: t).takeWhile isWsChar) = ' ' :: t.takeWhile isWsChar from rfl]
  simp only [List.length_cons]
  rw [if_neg (by omega)]
  rw [if_pos (by omega)]
  rw [List.drop_succ_cons, drop_length_takeWhile]

theorem take3_of_isPrefixOf {p l : Str} (hlen : 3 ≤ p.length)
    (hp : p.isPrefixOf l = true) : l.take 3 = p.take 3 := by
  obtain ⟨s, hs⟩ := List.isPrefixOf_iff_prefix.mp hp
  rw [← hs, List.take_append_eq_append_take]
  have h0 : 3 - p.length = 0 := by omega
  rw [h0]
  simp

theorem isEmpty_false_of_ne {l : Str} (h : l ≠ []) : l.isEmpty = false := by
  cases l
  · exact absurd rfl h
  · rfl

theorem cbLine_code (st : CBState) (l : Str) (hin : st.inCodeBlock = true)
    (h3 : l.take 3 ≠ S "###") (hb : l.take 3 ≠ S "```") :
    cbLine st l = { st with codeBuffer := st.codeBuffer ++ [l] } := by
  have f1 : (S "```html").isPrefixOf l = false := by
    cases hp : (S "```html").isPrefixOf l
    · rfl
    · exact absurd ((take3_of_isPrefixOf (by decide) hp).trans (by decide)) hb
  have f2 : (S "```js").isPrefixOf l = false := by
    cases hp : (S "```js").isPrefixOf l
    · rfl
    · exact absurd ((take3_of_isPrefixOf (by decide) hp).trans (by decide)) hb
  have f3 : (S "```javascript").isPrefixOf l = false := by
    cases hp : (S "```javascript").isPrefixOf l
    · rfl
    · exact absurd ((take3_of_isPrefixOf (by decide) hp).trans (by decide)) hb
  have f4 : decide (l = S "```") = false := by
    have hne : l ≠ S "```" := fun he => hb (by rw [he]; decide)
    simp [hne]
  simp only [cbLine, matchAnchor_not_heading h3, matchPlain_not_heading h3, f1, f2, f3, f4,
    hin, Bool.false_and, Bool.false_or, Bool.false_eq_true, if_false, if_true]

theorem cbLine_heading (st : CBState) (t : Str) (hnin : st.inCodeBlock = false)
    (ht : jsTrimL t ≠ []) (ha : strIncludes t (S "[#]") = false) :
    cbLine st (S "### " ++ t)
      = { st with
          examples := flushInto st.examples st.currentExample
          currentExample := some ⟨jsTrimL t, none, none, []⟩ } := by
  have g1 : (S "```html").isPrefixOf (S "### " ++ t) = false := rfl
  have g2 : (S "```js").isPrefixOf (S "### " ++ t) = false := rfl
  have g3 : (S "```javascript").isPrefixOf (S "### " ++ t) = false := rfl
  have g4 : decide ((S "### " ++ t : Str) = S "```") = false := rfl
  simp only [cbLine, matchAnchor_heading t ha, matchPlain_heading t ht, jsTrimL_dropWhile,
    g1, g2, g3, g4, hnin, Bool.false_and, Bool.false_or, Bool.false_eq_true, if_false]

theorem cbLine_open_html (st : CBState) :
    cbLine st (S "```html")
      = { st with
          inCodeBlock := true
          codeBlockType := some CBType.html
          codeBuffer := [] } := rfl

theorem cbLine_close_html (st : CBState) (ex : ExampleBlock)
    (hin : st.inCodeBlock = true) (hcur : st.currentExample = some ex)
    (htype : st.codeBlockType = some CBType.html) :
    cbLine st (S "```")
      = { st with
          currentExample := some { ex with html := some (jsTrimL (joinNL st.codeBuffer)) }
          inCodeBlock := false
          codeBlockType := none
          codeBuffer := [] } := by
  simp only [cbLine, show matchAnchor (S "```") = none from rfl,
    show matchPlain (S "```") = none from rfl,
    show (S "```html").isPrefixOf (S "```") = false from rfl,
    show (S "```js").isPrefixOf (S "```") = false from rfl,
    show (S "```javascript").isPrefixOf (S "```") = false from rfl,
    show decide ((S "```" : Str) = S "```") = true from rfl,
    hin, hcur, htype, Bool.true_and, Bool.false_eq_true, if_false, if_true]
  simp

theorem splitNL_no_newline {l : Str} (h : '\n' ∉ l) : splitNL l = [l] := by
  induction l with
  | nil => rfl
  | cons c rest ih =>
    have hc : c ≠ '\n' := fun he => h (he ▸ List.mem_cons_self c rest)
    have hrest : '\n' ∉ rest := fun hm => h (List.mem_cons_of_mem c hm)
    simp only [splitNL, ih hrest]
    rw [if_neg hc]

theorem splitNL_append_newline {l : Str} (h : '\n' ∉ l) (s : Str) :
    splitNL (l ++ '\n' :: s) = l :: splitNL s := by
  induction l with
  | nil =>
    simp only [List.nil_append, splitNL]
    rw [if_pos trivial]
  | cons c rest ih =>
    have hc : c ≠ '\n' := fun he => h (he ▸ List.mem_cons_self c rest)
    have hrest : '\n' ∉ rest := fun hm => h (List.mem_cons_of_mem c hm)
    simp only [List.cons_append, splitNL, ih hrest]
    rw [if_neg hc]
    rw [show splitNL (List.append rest ('\n' :: s)) = rest :: splitNL s from ih hrest]

theorem splitNL_joinNL : ∀ L : List Str, L ≠ [] → (∀ l ∈ L, '\n' ∉ l) →
    splitNL (joinNL L) = L := by
  intro L
  induction L with
  | nil => intro h _; exact absurd rfl h
  | cons l rest ih =>
    intro _ hall
    cases rest with
    | nil => exact splitNL_no_newline (hall l (List.mem_cons_self _ _))
    | cons l2 rest2 =>
      rw [show joinNL (l :: l2 :: rest2) = l ++ '\n' :: joinNL (l2 :: rest2) from rfl]
      rw [splitNL_append_newline (hall l (List.mem_cons_self _ _))]
      rw [ih (by simp) (fun x hx => hall x (List.mem_cons_of_mem _ hx))]

theorem foldl_code (c : List Str) : ∀ st : CBState, st.inCodeBlock = true →
    (∀ l ∈ c, l.take 3 ≠ S "###" ∧ l.take 3 ≠ S "```") →
    c.foldl cbLine st = { st with codeBuffer := st.codeBuffer ++ c } := by
  induction c with
  | nil =>
    intro st _ _
    simp
  | cons l c2 ih =>
    intro st hin hall
    rw [List.foldl_cons,
      cbLine_code st l hin (hall l (List.mem_cons_self _ _)).1 (hall l (List.mem_cons_self _ _)).2]
    rw [ih { st with codeBuffer := st.codeBuffer ++ [l] } hin
      (fun x hx => hall x (List.mem_cons_of_mem _ hx))]
    simp

/-- The line span of one example section on a detail page: a level-3 heading
followed by exactly one fenced html code block. -/
def sectionLines (t : Str) (c : List Str) : List Str :=
  [S "### " ++ t, S "```html"] ++ c ++ [S "```"]

theorem foldl_section (st : CBState) (t : Str) (c : List Str)
    (hnin : st.inCodeBlock = false) (ht : jsTrimL t ≠ [])
    (ha : strIncludes t (S "[#]") = false)
    (hc : ∀ l ∈ c, l.take 3 ≠ S "###" ∧ l.take 3 ≠ S "```") :
    (sectionLines t c).foldl cbLine st
      = { st with
          examples := flushInto st.examples st.currentExample
          currentExample := some ⟨jsTrimL t, some (jsTrimL (joinNL c)), none, []⟩
          inCodeBlock := false
          codeBlockType := none
          codeBuffer := [] } := by
  have hsplit : sectionLines t c
      = (S "### " ++ t) :: (S "```html") :: (c ++ [S "```"]) := by
    simp [sectionLines]
  rw [hsplit, List.foldl_cons, cbLine_heading st t hnin ht ha, List.foldl_cons,
    cbLine_open_html]
  rw [List.foldl_append]
  rw [foldl_code c _ rfl hc]
  rw [List.foldl_cons, List.foldl_nil]
  rw [cbLine_close_html _ ⟨jsTrimL t, none, none, []⟩ rfl rfl rfl]
  simp

theorem newline_not_in_heading {t : Str} (h : '\n' ∉ t) : '\n' ∉ S "### " ++ t := by
  intro hm
  rcases List.mem_append.mp hm with h1 | h2
  · exact absurd h1 (by decide)
  · exact h h2

theorem foldl_two_sections (st : CBState) (t1 t2 : Str) (c1 c2 : List Str)
    (hnin : st.inCodeBlock = false)
    (h1t : jsTrimL t1 ≠ []) (h1a : strIncludes t1 (S "[#]") = false)
    (h2t : jsTrimL t2 ≠ []) (h2a : strIncludes t2 (S "[#]") = false)
    (hc1 : ∀ l ∈ c1, l.take 3 ≠ S "###" ∧ l.take 3 ≠ S "```")
    (hc2 : ∀ l ∈ c2, l.take 3 ≠ S "###" ∧ l.take 3 ≠ S "```") :
    (sectionLines t1 c1 ++ sectionLines t2 c2).foldl cbLine st
      = { st with
          examples := flushInto (flushInto st.examples st.currentExample)
            (some ⟨jsTrimL t1, some (jsTrimL (joinNL c1)), none, []⟩)
          currentExample := some ⟨jsTrimL t2, some (jsTrimL (joinNL c2)), none, []⟩
          inCodeBlock := false
          codeBlockType := none
          codeBuffer := [] } := by
  rw [List.foldl_append, foldl_section st t1 c1 hnin h1t h1a hc1]
  rw [foldl_section { st with
        examples := flushInto st.examples st.currentExample
        currentExample := some ⟨jsTrimL t1, some (jsTrimL (joinNL c1)), none, []⟩
        inCodeBlock := false
        codeBlockType := none
        codeBuffer := [] } t2 c2 rfl h2t h2a hc2]

/-- C6: on a detail page consisting of a bare level-3 heading with no code
block under it, followed by exactly two level-3 heading lines each carrying
exactly one fenced html code block, `parseCodeBlocks` returns exactly two
example blocks, in document order, each holding only the (trimmed) code that
appeared under its own heading; the code-less leading heading is discarded
and not emitted. -/
theorem c6_two_blocks (t0 t1 t2 : Str) (c1 c2 : List Str)
    (h0t : jsTrimL t0 ≠ []) (h0a : strIncludes t0 (S "[#]") = false) (h0n : '\n' ∉ t0)
    (h1t : jsTrimL t1 ≠ []) (h1a : strIncludes t1 (S "[#]") = false) (h1n : '\n' ∉ t1)
    (h2t : jsTrimL t2 ≠ []) (h2a : strIncludes t2 (S "[#]") = false) (h2n : '\n' ∉ t2)
    (hc1 : ∀ l ∈ c1, l.take 3 ≠ S "###" ∧ l.take 3 ≠ S "```" ∧ '\n' ∉ l)
    (hc2 : ∀ l ∈ c2, l.take 3 ≠ S "###" ∧ l.take 3 ≠ S "```" ∧ '\n' ∉ l)
    (hnz1 : jsTrimL (joinNL c1) ≠ []) (hnz2 : jsTrimL (joinNL c2) ≠ []) :
    parseCodeBlocks (joinNL
        ((S "### " ++ t0) :: (sectionLines t1 c1 ++ sectionLines t2 c2)))
      = [⟨jsTrimL t1, some (jsTrimL (joinNL c1)), none, []⟩,
         ⟨jsTrimL t2, some (jsTrimL (joinNL c2)), none, []⟩] := by
  have hc1' : ∀ l ∈ c1, l.take 3 ≠ S "###" ∧ l.take 3 ≠ S "```" :=
    fun l hl => ⟨(hc1 l hl).1, (hc1 l hl).2.1⟩
  have hc2' : ∀ l ∈ c2, l.take 3 ≠ S "###" ∧ l.take 3 ≠ S "```" :=
    fun l hl => ⟨(hc2 l hl).1, (hc2 l hl).2.1⟩
  have hnl : ∀ l ∈ (S "### " ++ t0) :: (sectionLines t1 c1 ++ sectionLines t2 c2),
      '\n' ∉ l := by
    intro l hl
    rcases List.mem_cons.mp hl with rfl | hl2
    · exact newline_not_in_heading h0n
    rcases List.mem_append.mp hl2 with hA | hB
    · simp only [sectionLines, List.cons_append, List.nil_append, List.mem_cons,
        List.mem_singleton, List.mem_append] at hA
      rcases hA with rfl | rfl | hA2 | rfl | hA3
      · exact newline_not_in_heading h1n
      · decide
      · exact (hc1 l hA2).2.2
      · decide
      · exact absurd hA3 (List.not_mem_nil l)
    · simp only [sectionLines, List.cons_append, List.nil_append, List.mem_cons,
        List.mem_singleton, List.mem_append] at hB
      rcases hB with rfl | rfl | hB2 | rfl | hB3
      · exact newline_not_in_heading h2n
      · decide
      · exact (hc2 l hB2).2.2
      · decide
      · exact absurd hB3 (List.not_mem_nil l)
  simp only [parseCodeBlocks]
  rw [splitNL_joinNL _ (by simp) hnl]
  rw [List.foldl_cons, cbLine_heading initCBState t0 rfl h0t h0a]
  rw [foldl_two_sections { initCBState with
        examples := flushInto initCBState.examples initCBState.currentExample
        currentExample := some ⟨jsTrimL t0, none, none, []⟩ }
      t1 t2 c1 c2 rfl h1t h1a h2t h2a hc1' hc2']
  simp [flushInto, truthyS, initCBState, isEmpty_false_of_ne hnz1, isEmpty_false_of_ne hnz2]

theorem c6_two_blocks_witness :
    parseCodeBlocks (joinNL
        ((S "### " ++ S "Intro")
          :: (sectionLines (S "Primario") [S "<button>A</button>"]
              ++ sectionLines (S "Deshabilitado") [S "<button>B</button>"])))
      = [⟨S "Primario", some (S "<button>A</button>"), none, []⟩,
         ⟨S "Deshabilitado", some (S "<button>B</button>"), none, []⟩] :=
  c6_two_blocks (S "Intro") (S "Primario") (S "Deshabilitado")
    [S "<button>A</button>"] [S "<button>B</button>"]
    (by decide) (by decide) (by decide) (by decide) (by decide) (by decide)
    (by decide) (by decide) (by decide) (by decide) (by decide) (by decide) (by decide)
